import Mathlib

/-!
Shallow embedding of the golem-cli entry point (`src/main.rs`) and the parts of
its collaborators that the verified properties depend on.

The entry point resolves configuration (base URL, TLS relaxation, verbosity),
builds an HTTP client context, dispatches a subcommand handler, renders the
resulting `GolemResult` according to the `--format` flag, and maps the outcome
to a process exit code.  External crates (url, reqwest, serde_json,
clap_verbosity_flag, tracing_subscriber) are modelled only as far as the
entry point exercises them.
-/

namespace GolemCli

/-- Output format flag.  The rendering match in `async_main` has exactly the
arms `Format::Json` and `Format::Yaml` and no wildcard, so the `Format`
enumeration has exactly these two variants. -/
inductive Format where
  | Yaml
  | Json
deriving DecidableEq, Repr

/-- Default of the `--format` flag (`default_value = "yaml"` in `GolemCommand`). -/
def formatDefault : Format := Format.Yaml

/-- Model of a structured JSON value (`serde_json::Value`).  Numbers are
modelled as integers; floating-point numbers are outside the model. -/
inductive JValue where
  | null
  | bool (b : Bool)
  | num (n : Int)
  | str (s : String)
  | arr (elems : List JValue)
  | obj (fields : List (String × JValue))

/-- Handler result carrier (`golem_cli::model::GolemResult`).  The `Ok` payload
is a domain object that renders itself per format; it is modelled by the text
it prints. -/
inductive GolemResult where
  | Ok (printRes : Format → String)
  | Str (s : String)
  | Json (v : JValue)

/-- Output channel of a process write. -/
inductive Channel where
  | stdout
  | stderr
deriving DecidableEq, Repr, BEq

/-- Log levels of the clap verbosity flag (`clap_verbosity_flag::Level`). -/
inductive Level where
  | error
  | warn
  | info
  | debug
  | trace
deriving DecidableEq, Repr

/-- Levels of the tracing crate (`tracing::Level`); note there is no `OFF`. -/
inductive TracingLevel where
  | ERROR
  | WARN
  | INFO
  | DEBUG
  | TRACE
deriving DecidableEq, Repr

/-- The level translation performed in `main` (lines 91-97 of `main.rs`). -/
def toTracingLevel : Level → TracingLevel
  | Level.error => TracingLevel.ERROR
  | Level.warn => TracingLevel.WARN
  | Level.info => TracingLevel.INFO
  | Level.debug => TracingLevel.DEBUG
  | Level.trace => TracingLevel.TRACE

/-- Configuration of the `FmtSubscriber` built in `main`: a maximum level and
the writer it sends formatted events to. -/
structure SubscriberConfig where
  maxLevel : TracingLevel
  writer : Channel
deriving DecidableEq, Repr

/-- Subscriber installation in `main` (lines 90-106): a global subscriber is
built and installed only inside `if let Some(level) = command.verbosity.log_level()`,
with `with_max_level` the translated level and `with_writer(std::io::stderr)`. -/
def setupSubscriber (verbosityLevel : Option Level) : Option SubscriberConfig :=
  verbosityLevel.map (fun l => { maxLevel := toTracingLevel l, writer := Channel.stderr })

/-- Modelled from the external clap_verbosity_flag crate (default `ErrorLevel`):
the effective verbosity index is 1 + verbose occurrences - quiet occurrences;
a non-positive index means `Off` and `log_level()` returns `None`. -/
def verbosityLogLevel (verbose quiet : Nat) : Option Level :=
  let v : Int := 1 + (verbose : Int) - (quiet : Int)
  if v ≤ 0 then none
  else if v = 1 then some Level.error
  else if v = 2 then some Level.warn
  else if v = 3 then some Level.info
  else if v = 4 then some Level.debug
  else some Level.trace

/-- Base URL resolution in `async_main` (lines 116-119):
`cmd.golem_url.or_else(|| std::env::var("GOLEM_BASE_URL").ok()).unwrap_or("http://localhost:9881")`. -/
def resolveBaseUrl (golem_url : Option String) (envBaseUrl : Option String) : String :=
  ((golem_url.orElse (fun _ => envBaseUrl)).getD "http://localhost:9881")

/-- The TLS-relaxation flag in `async_main` (lines 121-122): the value of
`GOLEM_ALLOW_INSECURE` defaulted to `"false"`, compared against `"false"`. -/
def allow_insecure (envAllowInsecure : Option String) : Bool :=
  let allow_insecure_str := envAllowInsecure.getD "false"
  allow_insecure_str != "false"

/-- Relevant configuration of the reqwest client builder. -/
structure ClientConfig where
  danger_accept_invalid_certs : Bool
  connection_verbose : Bool
deriving DecidableEq, Repr

/-- Client construction in `async_main` (lines 124-128).  The reqwest builder
default is to verify certificates; `danger_accept_invalid_certs(true)` is
applied only when `allow_insecure` holds, and `connection_verbose(true)`
always. -/
def buildClient (envAllowInsecure : Option String) : ClientConfig :=
  let builder : ClientConfig :=
    { danger_accept_invalid_certs := false, connection_verbose := false }
  let builder :=
    if allow_insecure envAllowInsecure then
      { builder with danger_accept_invalid_certs := true }
    else builder
  { builder with connection_verbose := true }

/-- A parsed URL: its (lowercased) scheme and the remainder after the colon. -/
structure Url where
  scheme : String
  rest : String
deriving DecidableEq, Repr

/-- Splits a character list at the first colon, if any. -/
def splitAtColon : List Char → Option (List Char × List Char)
  | [] => none
  | c :: cs =>
      if c = ':' then some ([], cs)
      else (splitAtColon cs).map (fun p => (c :: p.1, p.2))

/-- Scheme characters per RFC 3986 as accepted by the url crate. -/
def isSchemeChar (c : Char) : Bool :=
  c.isAlphanum || c = '+' || c = '-' || c = '.'

/-- Modelled from the external url crate (`Url::parse`): an absolute URL needs
a nonempty scheme of scheme characters starting with a letter, terminated by a
colon; the scheme is lowercased.  The model does not validate the remainder,
which only makes it accept more strings than the crate. -/
def parseUrl (s : String) : Option Url :=
  match splitAtColon s.data with
  | none => none
  | some (schemeChars, rest) =>
    match schemeChars with
    | [] => none
    | c :: cs =>
        if c.isAlpha && cs.all isSchemeChar then
          some { scheme := String.mk ((c :: cs).map Char.toLower), rest := String.mk rest }
        else none

/-- The client context (`golem_client::Context`), holding the resolved base
URL; the HTTP client is carried separately as `ClientConfig`. -/
structure Context where
  base_url : Url
deriving DecidableEq, Repr

/-- Context construction in `async_main` (lines 116-133): the resolved URL
string is parsed and, when parsing succeeds, stored unchanged in the
`Context`.  No validation beyond URL parsing is performed. -/
def buildContext (golem_url : Option String) (envBaseUrl : Option String) : Option Context :=
  (parseUrl (resolveBaseUrl golem_url envBaseUrl)).map (fun u => { base_url := u })

/-- Outcome of dispatching the selected subcommand handler. -/
inductive HandlerOutcome where
  | ok (r : GolemResult)
  | err

/-- Exit code attached to `async_main` given the parsed command's URL flag, the
environment, and the handler outcome.  `Url::parse(&url_str).unwrap()` (line
120) panics on a parse failure, which terminates the Rust process with exit
code 101; otherwise `Ok(())` maps to exit 0 and a returned error to exit 1. -/
def asyncMainExitCode (golem_url : Option String) (envBaseUrl : Option String)
    (handlerRes : HandlerOutcome) : Nat :=
  match parseUrl (resolveBaseUrl golem_url envBaseUrl) with
  | none => 101
  | some _ =>
    match handlerRes with
    | HandlerOutcome.ok _ => 0
    | HandlerOutcome.err => 1

/-- Result of clap argument parsing: a parsed command (its URL flag retained)
or a parse error, on which clap exits with code 2. -/
inductive ParseResult where
  | ok (golem_url : Option String)
  | parseError

/-- Process exit code of a full invocation. -/
def mainExitCode (p : ParseResult) (envBaseUrl : Option String)
    (handlerRes : HandlerOutcome) : Nat :=
  match p with
  | ParseResult.parseError => 2
  | ParseResult.ok golem_url => asyncMainExitCode golem_url envBaseUrl handlerRes

/-- Two-space indentation at nesting depth `n`, as produced by serde_json's
default `PrettyFormatter`. -/
def indentChars (n : Nat) : List Char := List.replicate (2 * n) ' '

/-- Lowercase hexadecimal digit character, as in serde_json's escape table. -/
def hexDigitChar (n : Nat) : Char :=
  Char.ofNat (if n < 10 then 48 + n else 87 + n)

/-- Escape of one character inside a JSON string, following serde_json: quote
and backslash are escaped, the named control escapes cover backspace, form
feed, newline, carriage return and tab, any other control character below
0x20 becomes a six-character unicode escape, and everything else is emitted
verbatim. -/
def escapeChar (c : Char) : List Char :=
  if c = '"' then ['\\', '"']
  else if c = '\\' then ['\\', '\\']
  else if c = Char.ofNat 8 then ['\\', 'b']
  else if c = Char.ofNat 12 then ['\\', 'f']
  else if c = '\n' then ['\\', 'n']
  else if c = '\r' then ['\\', 'r']
  else if c = '\t' then ['\\', 't']
  else if c.toNat < 32 then
    ['\\', 'u', '0', '0', hexDigitChar (c.toNat / 16), hexDigitChar (c.toNat % 16)]
  else [c]

/-- Escape of a whole JSON string body. -/
def escapeStr : List Char → List Char
  | [] => []
  | c :: cs => escapeChar c ++ escapeStr cs

/-- Decimal digit characters of a natural number, most significant first
(empty for zero). -/
def natToChars (n : Nat) : List Char :=
  (Nat.digits 10 n).reverse.map (fun d => Char.ofNat (48 + d))

/-- Decimal rendering of an integer as serde_json's itoa emits it. -/
def numChars : Int → List Char
  | Int.ofNat n => if n = 0 then ['0'] else natToChars n
  | Int.negSucc m => '-' :: natToChars (m + 1)

mutual

/-- Pretty serialisation of a JSON value at nesting depth `d`, following
serde_json's `to_string_pretty`: empty containers close immediately, and a
nonempty container puts each item on its own line at two-space indentation,
closing on a fresh line at the enclosing depth. -/
def printVal : Nat → JValue → List Char
  | _, JValue.null => ['n', 'u', 'l', 'l']
  | _, JValue.bool true => ['t', 'r', 'u', 'e']
  | _, JValue.bool false => ['f', 'a', 'l', 's', 'e']
  | _, JValue.num i => numChars i
  | _, JValue.str s => '"' :: (escapeStr s.data ++ ['"'])
  | _, JValue.arr [] => ['[', ']']
  | d, JValue.arr (x :: xs) =>
      '[' :: ('\n' :: (indentChars (d + 1) ++ printVal (d + 1) x) ++
        (printElemsTail (d + 1) xs ++ ('\n' :: (indentChars d ++ [']']))))
  | _, JValue.obj [] => ['{', '}']
  | d, JValue.obj (kv :: kvs) =>
      '{' :: ('\n' :: (indentChars (d + 1) ++ printFieldBody (d + 1) kv) ++
        (printFieldsTail (d + 1) kvs ++ ('\n' :: (indentChars d ++ ['}']))))

/-- One object member without its leading line break: quoted escaped key, a
colon and space, then the value. -/
def printFieldBody : Nat → String × JValue → List Char
  | d, (k, v) => '"' :: (escapeStr k.data ++ ('"' :: ':' :: ' ' :: printVal d v))

/-- Second and later array elements, each preceded by a comma, line break and
indentation. -/
def printElemsTail : Nat → List JValue → List Char
  | _, [] => []
  | d, v :: vs =>
      ',' :: ('\n' :: (indentChars d ++ printVal d v) ++ printElemsTail d vs)

/-- Second and later object members, each preceded by a comma, line break and
indentation. -/
def printFieldsTail : Nat → List (String × JValue) → List Char
  | _, [] => []
  | d, kv :: kvs =>
      ',' :: ('\n' :: (indentChars d ++ printFieldBody d kv) ++ printFieldsTail d kvs)

end

/-- The serde_json `to_string_pretty` model applied at top level. -/
def to_string_pretty (v : JValue) : String := String.mk (printVal 0 v)

/-- Output writes of the result-rendering match in `async_main` (lines
168-184), parameterised by the external serde_yaml serialiser.  Each
`println!` writes its text plus a newline to stdout.  The `Ok` branch defers
to the domain object's own `println`; `PrintRes` is not part of this source
file and is modelled from the spec: the renderer writes the object's rendered
form to stdout. -/
def renderEffects (yamlSer : JValue → String) : GolemResult → Format → List (Channel × String)
  | GolemResult.Ok r, fmt => [(Channel.stdout, r fmt)]
  | GolemResult.Str s, _ => [(Channel.stdout, s ++ "\n")]
  | GolemResult.Json v, Format.Json => [(Channel.stdout, to_string_pretty v ++ "\n")]
  | GolemResult.Json v, Format.Yaml => [(Channel.stdout, yamlSer v ++ "\n")]

/-- Whitespace characters of the JSON grammar. -/
def isWs (c : Char) : Bool :=
  c = ' ' || c = '\n' || c = '\t' || c = '\r'

/-- Drops leading JSON whitespace. -/
def skipWs : List Char → List Char
  | [] => []
  | c :: cs => if isWs c then skipWs cs else c :: cs

/-- Consumes an expected literal prefix, returning the remainder. -/
def stripPre : List Char → List Char → Option (List Char)
  | [], cs => some cs
  | _ :: _, [] => none
  | t :: ts, c :: cs => if c = t then stripPre ts cs else none

/-- Value of one hexadecimal digit character. -/
def hexVal (c : Char) : Option Nat :=
  if 48 ≤ c.toNat ∧ c.toNat ≤ 57 then some (c.toNat - 48)
  else if 97 ≤ c.toNat ∧ c.toNat ≤ 102 then some (c.toNat - 87)
  else if 65 ≤ c.toNat ∧ c.toNat ≤ 70 then some (c.toNat - 55)
  else none

/-- Decoding of a single-character JSON string escape. -/
def escDecode (e : Char) : Option Char :=
  if e = '"' then some '"'
  else if e = '\\' then some '\\'
  else if e = '/' then some '/'
  else if e = 'b' then some (Char.ofNat 8)
  else if e = 'f' then some (Char.ofNat 12)
  else if e = 'n' then some '\n'
  else if e = 'r' then some '\r'
  else if e = 't' then some '\t'
  else none

/-- Parses the body of a JSON string after its opening quote, returning the
decoded characters and the remainder after the closing quote.  The fuel only
bounds recursion depth; every step consumes at least one character, so fuel
exceeding the input length never runs out.  Unicode escapes for surrogate
code points are rejected; surrogate pairs are not modelled (the printer never
emits them). -/
def parseStringBody : Nat → List Char → Option (List Char × List Char)
  | 0, _ => none
  | fuel + 1, cs =>
    match cs with
    | [] => none
    | c :: rest =>
      if c = '"' then some ([], rest)
      else if c = '\\' then
        match rest with
        | [] => none
        | e :: rest2 =>
          match escDecode e with
          | some d => (parseStringBody fuel rest2).map (fun p => (d :: p.1, p.2))
          | none =>
            if e = 'u' then
              match rest2 with
              | h1 :: h2 :: h3 :: h4 :: rest3 =>
                match hexVal h1, hexVal h2, hexVal h3, hexVal h4 with
                | some a, some b, some c2, some d2 =>
                  let n := ((a * 16 + b) * 16 + c2) * 16 + d2
                  if n < 55296 then
                    (parseStringBody fuel rest3).map (fun p => (Char.ofNat n :: p.1, p.2))
                  else none
                | _, _, _, _ => none
              | _ => none
            else none
      else (parseStringBody fuel rest).map (fun p => (c :: p.1, p.2))

/-- Accumulates decimal digits left to right, stopping at the first
non-digit. -/
def parseNatAux : List Char → Nat → Nat × List Char
  | [], acc => (acc, [])
  | c :: cs, acc =>
      if c.isDigit then parseNatAux cs (acc * 10 + (c.toNat - 48))
      else (acc, c :: cs)

/-- Parses a nonempty run of decimal digits. -/
def parseNat (cs : List Char) : Option (Nat × List Char) :=
  match cs with
  | c :: _ => if c.isDigit then some (parseNatAux cs 0) else none
  | [] => none

mutual

/-- Fuelled recursive-descent parser for one JSON value, modelled from the
external serde_json deserialiser: leading whitespace is skipped, then the
head character selects a literal, string, number, array or object.  Exponent
and fraction parts of numbers are outside the model (values carry integers
only). -/
def parseValue : Nat → List Char → Option (JValue × List Char)
  | 0, _ => none
  | fuel + 1, cs0 =>
    match skipWs cs0 with
    | [] => none
    | c :: cs =>
      if c = 'n' then (stripPre ['u', 'l', 'l'] cs).map (fun r => (JValue.null, r))
      else if c = 't' then (stripPre ['r', 'u', 'e'] cs).map (fun r => (JValue.bool true, r))
      else if c = 'f' then (stripPre ['a', 'l', 's', 'e'] cs).map (fun r => (JValue.bool false, r))
      else if c = '"' then
        (parseStringBody (cs.length + 1) cs).map (fun p => (JValue.str (String.mk p.1), p.2))
      else if c = '[' then
        match parseValue fuel cs with
        | some (v, r) => parseArrTail fuel [v] r
        | none =>
          match skipWs cs with
          | c2 :: r2 => if c2 = ']' then some (JValue.arr [], r2) else none
          | [] => none
      else if c = '{' then
        match skipWs cs with
        | [] => none
        | c2 :: r2 =>
          if c2 = '}' then some (JValue.obj [], r2)
          else
            match parseMember fuel (c2 :: r2) with
            | some (kv, r3) => parseObjTail fuel [kv] r3
            | none => none
      else if c = '-' then
        match parseNat cs with
        | some (n, r) => some (JValue.num (-(n : Int)), r)
        | none => none
      else if c.isDigit then
        match parseNat (c :: cs) with
        | some (n, r) => some (JValue.num (n : Int), r)
        | none => none
      else none

/-- Parses the continuation of a nonempty array after its first elements
`acc` (held in reverse): a comma and a further element, or the closing
bracket. -/
def parseArrTail : Nat → List JValue → List Char → Option (JValue × List Char)
  | 0, _, _ => none
  | fuel + 1, acc, cs0 =>
    match skipWs cs0 with
    | [] => none
    | c :: cs =>
      if c = ']' then some (JValue.arr acc.reverse, cs)
      else if c = ',' then
        match parseValue fuel cs with
        | some (v, r) => parseArrTail fuel (v :: acc) r
        | none => none
      else none

/-- Parses one object member: a quoted key, a colon, and a value. -/
def parseMember : Nat → List Char → Option ((String × JValue) × List Char)
  | 0, _ => none
  | fuel + 1, cs0 =>
    match skipWs cs0 with
    | [] => none
    | c :: cs =>
      if c = '"' then
        match parseStringBody (cs.length + 1) cs with
        | some (k, r2) =>
          match skipWs r2 with
          | [] => none
          | c2 :: r3 =>
            if c2 = ':' then
              (parseValue fuel r3).map (fun p => ((String.mk k, p.1), p.2))
            else none
        | none => none
      else none

/-- Parses the continuation of a nonempty object after its first members
`acc` (held in reverse): a comma and a further member, or the closing
brace. -/
def parseObjTail : Nat → List (String × JValue) → List Char → Option (JValue × List Char)
  | 0, _, _ => none
  | fuel + 1, acc, cs0 =>
    match skipWs cs0 with
    | [] => none
    | c :: cs =>
      if c = '}' then some (JValue.obj acc.reverse, cs)
      else if c = ',' then
        match parseMember fuel cs with
        | some (kv, r) => parseObjTail fuel (kv :: acc) r
        | none => none
      else none

end

/-- Top-level JSON parse of a string, modelling `serde_json::from_str`: one
value, with only whitespace allowed after it.  The fuel is one more than the
input length, which suffices for any printed value. -/
def parseJson (s : String) : Option JValue :=
  match parseValue (s.data.length + 1) s.data with
  | some (v, rest) => if skipWs rest = [] then some v else none
  | none => none

mutual

/-- Fuel requirement of a value for the fuelled parser. -/
def jsize : JValue → Nat
  | JValue.arr xs => 1 + jsizeList xs
  | JValue.obj kvs => 1 + jsizeFields kvs
  | _ => 1

def jsizeList : List JValue → Nat
  | [] => 1
  | v :: vs => 1 + jsize v + jsizeList vs

def jsizeFields : List (String × JValue) → Nat
  | [] => 1
  | (_, v) :: kvs => 2 + jsize v + jsizeFields kvs

end

/-- Decision that a character list does not start with a decimal digit, so a
number parse that stops here is not truncated. -/
def delimOk : List Char → Bool
  | [] => true
  | c :: _ => !c.isDigit

/-- The exact text written to stdout for `GolemResult::Json(v)` under
`--format json`: the pretty-printed value and the newline appended by
`println!`. -/
def renderJsonText (v : JValue) : String := to_string_pretty v ++ "\n"

theorem digitCharFacts : ∀ d : Nat, d < 10 →
    ((Char.ofNat (48 + d)).isDigit = true ∧
     (Char.ofNat (48 + d)).toNat - 48 = d ∧
     isWs (Char.ofNat (48 + d)) = false ∧
     Char.ofNat (48 + d) ≠ 'n' ∧ Char.ofNat (48 + d) ≠ 't' ∧
     Char.ofNat (48 + d) ≠ 'f' ∧ Char.ofNat (48 + d) ≠ '"' ∧
     Char.ofNat (48 + d) ≠ '[' ∧ Char.ofNat (48 + d) ≠ '{' ∧
     Char.ofNat (48 + d) ≠ '-') := by decide

theorem parseNatAux_digitList (ds : List Nat) (hds : ∀ d ∈ ds, d < 10) :
    ∀ (acc : Nat) (rest : List Char), delimOk rest = true →
    parseNatAux (ds.map (fun d => Char.ofNat (48 + d)) ++ rest) acc =
      (ds.foldl (fun a d => a * 10 + d) acc, rest) := by
  induction ds with
  | nil =>
      intro acc rest hr
      cases rest with
      | nil => rfl
      | cons c cs =>
          have : c.isDigit = false := by simpa [delimOk] using hr
          simp [parseNatAux, this]
  | cons d ds ih =>
      intro acc rest hr
      have hd : d < 10 := hds d (by simp)
      obtain ⟨h1, h2, -⟩ := digitCharFacts d hd
      simp only [List.map_cons, List.cons_append, parseNatAux, h1, if_true, h2, List.foldl_cons]
      exact ih (fun x hx => hds x (by simp [hx])) _ rest hr

theorem foldr_ofDigits (L : List Nat) :
    L.foldr (fun d a => a * 10 + d) 0 = Nat.ofDigits 10 L := by
  induction L with
  | nil => simp [Nat.ofDigits]
  | cons d L ih => simp [Nat.ofDigits, ih]; ring

theorem foldl_reverse_digits (n : Nat) :
    ((Nat.digits 10 n).reverse.foldl (fun a d => a * 10 + d) 0) = n := by
  rw [List.foldl_reverse]
  rw [foldr_ofDigits]
  exact_mod_cast Nat.ofDigits_digits 10 n

theorem parseNat_natToChars {n : Nat} (hn : n ≠ 0) (rest : List Char) (hr : delimOk rest = true) :
    parseNat (natToChars n ++ rest) = some (n, rest) := by
  have hne : Nat.digits 10 n ≠ [] := Nat.digits_ne_nil_iff_ne_zero.mpr hn
  have hlt : ∀ d ∈ (Nat.digits 10 n).reverse, d < 10 := by
    intro d hd
    exact Nat.digits_lt_base (by norm_num) (List.mem_reverse.mp hd)
  rcases hrev : (Nat.digits 10 n).reverse with _ | ⟨d, ds⟩
  · exact absurd (by simpa using congrArg List.reverse hrev) hne
  · have hd : d < 10 := hlt d (by rw [hrev]; simp)
    obtain ⟨h1, -⟩ := digitCharFacts d hd
    have key := parseNatAux_digitList ((Nat.digits 10 n).reverse) hlt 0 rest hr
    rw [foldl_reverse_digits] at key
    unfold natToChars
    rw [hrev] at key ⊢
    simp only [List.map_cons, List.cons_append] at key
    simp only [List.map_cons, List.cons_append, parseNat, h1, if_true]
    rw [key]

theorem hexVal_hexDigitChar : ∀ n : Nat, n < 16 → hexVal (hexDigitChar n) = some n := by decide


theorem escapeChar_length_pos (c : Char) : 1 ≤ (escapeChar c).length := by
  unfold escapeChar
  split_ifs <;> simp

theorem length_le_escapeStr (L : List Char) : L.length ≤ (escapeStr L).length := by
  induction L with
  | nil => simp [escapeStr]
  | cons c L ih =>
      have := escapeChar_length_pos c
      simp [escapeStr]
      omega

theorem parseStringBody_escape (L : List Char) : ∀ (fuel : Nat) (rest : List Char),
    L.length + 1 ≤ fuel →
    parseStringBody fuel (escapeStr L ++ '"' :: rest) = some (L, rest) := by
  induction L with
  | nil =>
      intro fuel rest hf
      cases fuel with
      | zero => omega
      | succ fuel => simp [escapeStr, parseStringBody]
  | cons c L ih =>
      intro fuel rest hf
      cases fuel with
      | zero => simp at hf
      | succ fuel =>
        have hfl : L.length + 1 ≤ fuel := by simp at hf; omega
        show parseStringBody (fuel + 1) ((escapeChar c ++ escapeStr L) ++ '"' :: rest) = _
        rw [List.append_assoc]
        unfold escapeChar
        by_cases h1 : c = '"'
        · subst h1; simp [parseStringBody, escDecode, ih fuel rest hfl]
        · rw [if_neg h1]
          by_cases h2 : c = '\\'
          · subst h2; simp [parseStringBody, escDecode, ih fuel rest hfl]
          · rw [if_neg h2]
            by_cases h3 : c = Char.ofNat 8
            · subst h3; simp [parseStringBody, escDecode, ih fuel rest hfl]
            · rw [if_neg h3]
              by_cases h4 : c = Char.ofNat 12
              · subst h4; simp [parseStringBody, escDecode, ih fuel rest hfl]
              · rw [if_neg h4]
                by_cases h5 : c = '\n'
                · subst h5; simp [parseStringBody, escDecode, ih fuel rest hfl]
                · rw [if_neg h5]
                  by_cases h6 : c = '\r'
                  · subst h6; simp [parseStringBody, escDecode, ih fuel rest hfl]
                  · rw [if_neg h6]
                    by_cases h7 : c = '\t'
                    · subst h7; simp [parseStringBody, escDecode, ih fuel rest hfl]
                    · rw [if_neg h7]
                      by_cases h8 : c.toNat < 32
                      · rw [if_pos h8]
                        have hhi : c.toNat / 16 < 16 := by omega
                        have hlo : c.toNat % 16 < 16 := Nat.mod_lt _ (by norm_num)
                        have h16 := hexVal_hexDigitChar _ hhi
                        have h16b := hexVal_hexDigitChar _ hlo
                        have hn : ((0 * 16 + 0) * 16 + c.toNat / 16) * 16 + c.toNat % 16 = c.toNat := by
                          omega
                        have hn2 : c.toNat / 16 * 16 + c.toNat % 16 = c.toNat := by omega
                        have h0 : hexVal '0' = some 0 := by decide
                        simp [parseStringBody, escDecode, h0, h16, h16b, hn, hn2,
                          show c.toNat < 55296 by omega, ih fuel rest hfl]
                      · rw [if_neg h8]
                        simp [parseStringBody, h1, h2, ih fuel rest hfl]

theorem skipWs_cons_of_not_ws {c : Char} (h : isWs c = false) (cs : List Char) :
    skipWs (c :: cs) = c :: cs := by simp [skipWs, h]

theorem skipWs_cons_of_ws {c : Char} (h : isWs c = true) (cs : List Char) :
    skipWs (c :: cs) = skipWs cs := by simp [skipWs, h]

theorem skipWs_indent (n : Nat) (cs : List Char) :
    skipWs (indentChars n ++ cs) = skipWs cs := by
  have : ∀ m (cs : List Char), skipWs (List.replicate m ' ' ++ cs) = skipWs cs := by
    intro m
    induction m with
    | zero => intro cs; rfl
    | succ m ih => intro cs; simpa [List.replicate_succ, skipWs, isWs] using ih cs
  exact this (2 * n) cs

theorem skipWs_newline_indent (n : Nat) (cs : List Char) :
    skipWs ('\n' :: (indentChars n ++ cs)) = skipWs cs := by
  rw [skipWs_cons_of_ws (by decide), skipWs_indent]

theorem parseValue_congr_ws {cs1 cs2 : List Char} (h : skipWs cs1 = skipWs cs2) :
    ∀ fuel : Nat, parseValue fuel cs1 = parseValue fuel cs2 := by
  intro fuel
  cases fuel with
  | zero => rfl
  | succ fuel => simp only [parseValue, h]

theorem one_le_jsize (v : JValue) : 1 ≤ jsize v := by
  cases v <;> simp [jsize]

theorem one_le_jsizeList (vs : List JValue) : 1 ≤ jsizeList vs := by
  cases vs with
  | nil => simp [jsizeList]
  | cons v vs => simp [jsizeList]; omega

theorem one_le_jsizeFields (kvs : List (String × JValue)) : 1 ≤ jsizeFields kvs := by
  cases kvs with
  | nil => simp [jsizeFields]
  | cons kv kvs => cases kv; simp [jsizeFields]; omega

theorem delimOk_printElemsTail (d : Nat) (vs : List JValue) (X : List Char) :
    delimOk (printElemsTail d vs ++ '\n' :: X) = true := by
  cases vs <;> simp [printElemsTail, delimOk]

theorem delimOk_printFieldsTail (d : Nat) (kvs : List (String × JValue)) (X : List Char) :
    delimOk (printFieldsTail d kvs ++ '\n' :: X) = true := by
  cases kvs <;> simp [printFieldsTail, delimOk]

theorem parseValue_close_bracket (fuel : Nat) (rest : List Char) :
    parseValue fuel (']' :: rest) = none := by
  cases fuel with
  | zero => rfl
  | succ fuel => simp [parseValue, skipWs, isWs]

theorem parseValue_numChars (fuel : Nat) (i : Int) (rest : List Char) (hr : delimOk rest = true) :
    parseValue (fuel + 1) (numChars i ++ rest) = some (JValue.num i, rest) := by
  have hstop : ∀ acc : Nat, parseNatAux (rest) acc = (acc, rest) := by
    intro acc
    cases rest with
    | nil => rfl
    | cons c cs =>
        have : c.isDigit = false := by simpa [delimOk] using hr
        simp [parseNatAux, this]
  cases i with
  | ofNat n =>
      by_cases hn : n = 0
      · subst hn
        simp [numChars, parseValue, skipWs, isWs, parseNat, parseNatAux, hstop]
      · have key := parseNat_natToChars hn rest hr
        have hne : Nat.digits 10 n ≠ [] := Nat.digits_ne_nil_iff_ne_zero.mpr hn
        rcases hrev : (Nat.digits 10 n).reverse with _ | ⟨dg, ds⟩
        · exact absurd (by simpa using congrArg List.reverse hrev) hne
        · have hd : dg < 10 := Nat.digits_lt_base (by norm_num) (List.mem_reverse.mp (by rw [hrev]; simp))
          obtain ⟨f1, f2, f3, f4, f5, f6, f7, f8, f9, f10⟩ := digitCharFacts dg hd
          have hchars : numChars (Int.ofNat n) = Char.ofNat (48 + dg) :: ds.map (fun d => Char.ofNat (48 + d)) := by
            simp [numChars, hn, natToChars, hrev]
          rw [hchars]
          rw [show (Char.ofNat (48 + dg) :: ds.map (fun d => Char.ofNat (48 + d))) ++ rest =
            Char.ofNat (48 + dg) :: (ds.map (fun d => Char.ofNat (48 + d)) ++ rest) from rfl]
          rw [parseValue]
          rw [skipWs_cons_of_not_ws f3]
          simp only [f4, f5, f6, f7, f8, f9, f10, if_false, f1, if_true, ite_false, ite_true]
          have : Char.ofNat (48 + dg) :: (ds.map (fun d => Char.ofNat (48 + d)) ++ rest) =
              natToChars n ++ rest := by
            simp [natToChars, hrev]
          rw [this, key]
          rfl
  | negSucc m =>
      have key : parseNat (natToChars (m + 1) ++ rest) = some (m + 1, rest) :=
        parseNat_natToChars (by omega) rest hr
      show parseValue (fuel + 1) (('-' :: natToChars (m + 1)) ++ rest) = _
      rw [List.cons_append, parseValue, skipWs_cons_of_not_ws (by decide)]
      simp only [show ('-' = 'n') = False by simp, show ('-' = 't') = False by simp,
        show ('-' = 'f') = False by simp, show ('-' = '"') = False by simp,
        show ('-' = '[') = False by simp, show ('-' = '{') = False by simp,
        ite_false, ite_true, if_true, if_false]
      rw [key]
      show some (JValue.num (-((m + 1 : Nat) : Int)), rest) = some (JValue.num (Int.negSucc m), rest)
      norm_num [Int.negSucc_eq]

theorem parseArrTail_congr_ws {cs1 cs2 : List Char} (h : skipWs cs1 = skipWs cs2)
    (fuel : Nat) (acc : List JValue) : parseArrTail fuel acc cs1 = parseArrTail fuel acc cs2 := by
  cases fuel with
  | zero => rfl
  | succ fuel => simp only [parseArrTail, h]

theorem parseObjTail_congr_ws {cs1 cs2 : List Char} (h : skipWs cs1 = skipWs cs2)
    (fuel : Nat) (acc : List (String × JValue)) :
    parseObjTail fuel acc cs1 = parseObjTail fuel acc cs2 := by
  cases fuel with
  | zero => rfl
  | succ fuel => simp only [parseObjTail, h]

theorem parseMember_congr_ws {cs1 cs2 : List Char} (h : skipWs cs1 = skipWs cs2)
    (fuel : Nat) : parseMember fuel cs1 = parseMember fuel cs2 := by
  cases fuel with
  | zero => rfl
  | succ fuel => simp only [parseMember, h]

theorem parseValue_string_branch (fuel : Nat) (cs : List Char) :
    parseValue (fuel + 1) ('"' :: cs) =
      (parseStringBody (cs.length + 1) cs).map (fun p => (JValue.str (String.mk p.1), p.2)) := by
  rw [parseValue, skipWs_cons_of_not_ws (by decide)]
  simp

theorem parseValue_lbracket_branch (fuel : Nat) (cs : List Char) :
    parseValue (fuel + 1) ('[' :: cs) =
      (match parseValue fuel cs with
       | some (v, r) => parseArrTail fuel [v] r
       | none =>
         match skipWs cs with
         | c2 :: r2 => if c2 = ']' then some (JValue.arr [], r2) else none
         | [] => none) := by
  rw [parseValue, skipWs_cons_of_not_ws (by decide)]
  simp

theorem parseValue_lbrace_branch (fuel : Nat) (cs : List Char) :
    parseValue (fuel + 1) ('{' :: cs) =
      (match skipWs cs with
       | [] => none
       | c2 :: r2 =>
         if c2 = '}' then some (JValue.obj [], r2)
         else
           match parseMember fuel (c2 :: r2) with
           | some (kv, r3) => parseObjTail fuel [kv] r3
           | none => none) := by
  rw [parseValue, skipWs_cons_of_not_ws (by decide)]
  simp

theorem parseArrTail_close (fuel : Nat) (acc : List JValue) (cs : List Char) :
    parseArrTail (fuel + 1) acc (']' :: cs) = some (JValue.arr acc.reverse, cs) := by
  rw [parseArrTail, skipWs_cons_of_not_ws (by decide)]
  simp

theorem parseArrTail_comma (fuel : Nat) (acc : List JValue) (cs : List Char) :
    parseArrTail (fuel + 1) acc (',' :: cs) =
      (match parseValue fuel cs with
       | some (v, r) => parseArrTail fuel (v :: acc) r
       | none => none) := by
  rw [parseArrTail, skipWs_cons_of_not_ws (by decide)]
  simp

theorem parseObjTail_close (fuel : Nat) (acc : List (String × JValue)) (cs : List Char) :
    parseObjTail (fuel + 1) acc ('}' :: cs) = some (JValue.obj acc.reverse, cs) := by
  rw [parseObjTail, skipWs_cons_of_not_ws (by decide)]
  simp

theorem parseObjTail_comma (fuel : Nat) (acc : List (String × JValue)) (cs : List Char) :
    parseObjTail (fuel + 1) acc (',' :: cs) =
      (match parseMember fuel cs with
       | some (kv, r) => parseObjTail fuel (kv :: acc) r
       | none => none) := by
  rw [parseObjTail, skipWs_cons_of_not_ws (by decide)]
  simp

theorem parseMember_quote (fuel : Nat) (cs : List Char) :
    parseMember (fuel + 1) ('"' :: cs) =
      (match parseStringBody (cs.length + 1) cs with
       | some (k, r2) =>
         match skipWs r2 with
         | [] => none
         | c2 :: r3 =>
           if c2 = ':' then (parseValue fuel r3).map (fun p => ((String.mk k, p.1), p.2)) else none
       | none => none) := by
  rw [parseMember, skipWs_cons_of_not_ws (by decide)]
  simp

theorem parse_print_roundtrip_aux : ∀ fuel : Nat,
    (∀ (v : JValue) (d : Nat) (rest : List Char), jsize v ≤ fuel → delimOk rest = true →
      parseValue fuel (printVal d v ++ rest) = some (v, rest)) ∧
    (∀ (vs acc : List JValue) (d e : Nat) (rest : List Char),
      jsizeList vs ≤ fuel → delimOk rest = true →
      parseArrTail fuel acc (printElemsTail d vs ++ '\n' :: (indentChars e ++ ']' :: rest)) =
        some (JValue.arr (acc.reverse ++ vs), rest)) ∧
    (∀ (kvs acc : List (String × JValue)) (d e : Nat) (rest : List Char),
      jsizeFields kvs ≤ fuel → delimOk rest = true →
      parseObjTail fuel acc (printFieldsTail d kvs ++ '\n' :: (indentChars e ++ '}' :: rest)) =
        some (JValue.obj (acc.reverse ++ kvs), rest)) ∧
    (∀ (k : String) (v : JValue) (d : Nat) (rest : List Char),
      jsize v + 1 ≤ fuel → delimOk rest = true →
      parseMember fuel (printFieldBody d (k, v) ++ rest) = some ((k, v), rest)) := by
  intro fuel
  induction fuel with
  | zero =>
      refine ⟨fun v d rest hsz hr => ?_, fun vs acc d e rest hsz hr => ?_,
        fun kvs acc d e rest hsz hr => ?_, fun k v d rest hsz hr => ?_⟩
      · have := one_le_jsize v; omega
      · have := one_le_jsizeList vs; omega
      · have := one_le_jsizeFields kvs; omega
      · have := one_le_jsize v; omega
  | succ fuel ih =>
      obtain ⟨ihA, ihB, ihC, ihD⟩ := ih
      refine ⟨fun v d rest hsz hr => ?_, fun vs acc d e rest hsz hr => ?_,
        fun kvs acc d e rest hsz hr => ?_, fun k v d rest hsz hr => ?_⟩
      · cases v with
        | null =>
            have h1 : printVal d JValue.null ++ rest = 'n' :: 'u' :: 'l' :: 'l' :: rest := by
              simp [printVal]
            rw [h1]
            simp [parseValue, skipWs, isWs, stripPre]
        | bool b =>
            cases b with
            | true =>
                have h1 : printVal d (JValue.bool true) ++ rest = 't' :: 'r' :: 'u' :: 'e' :: rest := by
                  simp [printVal]
                rw [h1]
                simp [parseValue, skipWs, isWs, stripPre]
            | false =>
                have h1 : printVal d (JValue.bool false) ++ rest =
                    'f' :: 'a' :: 'l' :: 's' :: 'e' :: rest := by
                  simp [printVal]
                rw [h1]
                simp [parseValue, skipWs, isWs, stripPre]
        | num i =>
            have h1 : printVal d (JValue.num i) ++ rest = numChars i ++ rest := by
              simp [printVal]
            rw [h1]
            exact parseValue_numChars fuel i rest hr
        | str s =>
            have h1 : printVal d (JValue.str s) ++ rest =
                '"' :: (escapeStr s.data ++ '"' :: rest) := by
              simp [printVal]
            rw [h1, parseValue_string_branch]
            rw [parseStringBody_escape s.data ((escapeStr s.data ++ '"' :: rest).length + 1) rest
              (by
                have h2 : (escapeStr s.data ++ '"' :: rest).length
                    = (escapeStr s.data).length + ('"' :: rest).length := List.length_append _ _
                have h3 : ('"' :: rest).length = rest.length + 1 := List.length_cons _ _
                have := length_le_escapeStr s.data
                omega)]
            rfl
        | arr xs =>
            cases xs with
            | nil =>
                have h1 : printVal d (JValue.arr []) ++ rest = '[' :: ']' :: rest := by
                  simp [printVal]
                rw [h1, parseValue_lbracket_branch, parseValue_close_bracket,
                  skipWs_cons_of_not_ws (by decide)]
                simp
            | cons x xs =>
                have hp1 := one_le_jsize x
                have hp2 := one_le_jsizeList xs
                simp only [jsize, jsizeList] at hsz
                have h1 : printVal d (JValue.arr (x :: xs)) ++ rest =
                    '[' :: '\n' :: (indentChars (d + 1) ++ (printVal (d + 1) x ++
                      (printElemsTail (d + 1) xs ++ '\n' :: (indentChars d ++ ']' :: rest)))) := by
                  simp [printVal]
                rw [h1, parseValue_lbracket_branch]
                have hx : parseValue fuel ('\n' :: (indentChars (d + 1) ++ (printVal (d + 1) x ++
                    (printElemsTail (d + 1) xs ++ '\n' :: (indentChars d ++ ']' :: rest))))) =
                    some (x, printElemsTail (d + 1) xs ++ '\n' :: (indentChars d ++ ']' :: rest)) := by
                  rw [parseValue_congr_ws (skipWs_newline_indent (d + 1) _) fuel]
                  exact ihA x (d + 1) _ (by omega) (delimOk_printElemsTail (d + 1) xs _)
                rw [hx]
                have hb := ihB xs [x] (d + 1) d rest (by omega) hr
                simpa using hb
        | obj kvs2 =>
            cases kvs2 with
            | nil =>
                have h1 : printVal d (JValue.obj []) ++ rest = '{' :: '}' :: rest := by
                  simp [printVal]
                rw [h1, parseValue_lbrace_branch, skipWs_cons_of_not_ws (by decide)]
                simp
            | cons kv kvs =>
                obtain ⟨k, v⟩ := kv
                have hp1 := one_le_jsize v
                have hp2 := one_le_jsizeFields kvs
                simp only [jsize, jsizeFields] at hsz
                have h1 : printVal d (JValue.obj ((k, v) :: kvs)) ++ rest =
                    '{' :: '\n' :: (indentChars (d + 1) ++ (printFieldBody (d + 1) (k, v) ++
                      (printFieldsTail (d + 1) kvs ++ '\n' :: (indentChars d ++ '}' :: rest)))) := by
                  simp [printVal]
                rw [h1, parseValue_lbrace_branch]
                have hfb : printFieldBody (d + 1) (k, v) ++
                    (printFieldsTail (d + 1) kvs ++ '\n' :: (indentChars d ++ '}' :: rest)) =
                    '"' :: (escapeStr k.data ++ '"' :: ':' :: ' ' :: (printVal (d + 1) v ++
                      (printFieldsTail (d + 1) kvs ++ '\n' :: (indentChars d ++ '}' :: rest)))) := by
                  simp [printFieldBody]
                have hskip : skipWs ('\n' :: (indentChars (d + 1) ++ (printFieldBody (d + 1) (k, v) ++
                    (printFieldsTail (d + 1) kvs ++ '\n' :: (indentChars d ++ '}' :: rest))))) =
                    '"' :: (escapeStr k.data ++ '"' :: ':' :: ' ' :: (printVal (d + 1) v ++
                      (printFieldsTail (d + 1) kvs ++ '\n' :: (indentChars d ++ '}' :: rest)))) := by
                  rw [skipWs_newline_indent, hfb]
                  exact skipWs_cons_of_not_ws (by decide) _
                rw [hskip]
                have hm : parseMember fuel ('"' :: (escapeStr k.data ++ '"' :: ':' :: ' ' ::
                    (printVal (d + 1) v ++ (printFieldsTail (d + 1) kvs ++ '\n' ::
                      (indentChars d ++ '}' :: rest))))) =
                    some ((k, v), printFieldsTail (d + 1) kvs ++ '\n' ::
                      (indentChars d ++ '}' :: rest)) := by
                  rw [← hfb]
                  exact ihD k v (d + 1) _ (by omega) (delimOk_printFieldsTail (d + 1) kvs _)
                have hc := ihC kvs [(k, v)] (d + 1) d rest (by omega) hr
                simp [hm, hc]
      · cases vs with
        | nil =>
            have h1 : printElemsTail d [] ++ '\n' :: (indentChars e ++ ']' :: rest) =
                '\n' :: (indentChars e ++ (']' :: rest)) := by
              simp [printElemsTail]
            rw [h1, parseArrTail_congr_ws (skipWs_newline_indent e (']' :: rest)) (fuel + 1) acc,
              parseArrTail_close]
            simp
        | cons v vs =>
            have hp1 := one_le_jsize v
            have hp2 := one_le_jsizeList vs
            simp only [jsizeList] at hsz
            have h1 : printElemsTail d (v :: vs) ++ '\n' :: (indentChars e ++ ']' :: rest) =
                ',' :: '\n' :: (indentChars d ++ (printVal d v ++
                  (printElemsTail d vs ++ '\n' :: (indentChars e ++ ']' :: rest)))) := by
              simp [printElemsTail]
            rw [h1, parseArrTail_comma]
            have hx : parseValue fuel ('\n' :: (indentChars d ++ (printVal d v ++
                (printElemsTail d vs ++ '\n' :: (indentChars e ++ ']' :: rest))))) =
                some (v, printElemsTail d vs ++ '\n' :: (indentChars e ++ ']' :: rest)) := by
              rw [parseValue_congr_ws (skipWs_newline_indent d _) fuel]
              exact ihA v d _ (by omega) (delimOk_printElemsTail d vs _)
            rw [hx]
            have hb := ihB vs (v :: acc) d e rest (by omega) hr
            simpa using hb
      · cases kvs with
        | nil =>
            have h1 : printFieldsTail d [] ++ '\n' :: (indentChars e ++ '}' :: rest) =
                '\n' :: (indentChars e ++ ('}' :: rest)) := by
              simp [printFieldsTail]
            rw [h1, parseObjTail_congr_ws (skipWs_newline_indent e ('}' :: rest)) (fuel + 1) acc,
              parseObjTail_close]
            simp
        | cons kv kvs =>
            obtain ⟨k, v⟩ := kv
            have hp1 := one_le_jsize v
            have hp2 := one_le_jsizeFields kvs
            simp only [jsizeFields] at hsz
            have h1 : printFieldsTail d ((k, v) :: kvs) ++ '\n' :: (indentChars e ++ '}' :: rest) =
                ',' :: '\n' :: (indentChars d ++ (printFieldBody d (k, v) ++
                  (printFieldsTail d kvs ++ '\n' :: (indentChars e ++ '}' :: rest)))) := by
              simp [printFieldsTail]
            rw [h1, parseObjTail_comma]
            have hm : parseMember fuel ('\n' :: (indentChars d ++ (printFieldBody d (k, v) ++
                (printFieldsTail d kvs ++ '\n' :: (indentChars e ++ '}' :: rest))))) =
                some ((k, v), printFieldsTail d kvs ++ '\n' :: (indentChars e ++ '}' :: rest)) := by
              rw [parseMember_congr_ws (skipWs_newline_indent d _) fuel]
              exact ihD k v d _ (by omega) (delimOk_printFieldsTail d kvs _)
            rw [hm]
            have hc := ihC kvs ((k, v) :: acc) d e rest (by omega) hr
            simpa using hc
      · have h1 : printFieldBody d (k, v) ++ rest =
            '"' :: (escapeStr k.data ++ '"' :: ':' :: ' ' :: (printVal d v ++ rest)) := by
          simp [printFieldBody]
        rw [h1, parseMember_quote]
        rw [parseStringBody_escape k.data
          ((escapeStr k.data ++ '"' :: ':' :: ' ' :: (printVal d v ++ rest)).length + 1)
          (':' :: ' ' :: (printVal d v ++ rest))
          (by
            have h2 : (escapeStr k.data ++ '"' :: ':' :: ' ' :: (printVal d v ++ rest)).length
                = (escapeStr k.data).length
                  + ('"' :: ':' :: ' ' :: (printVal d v ++ rest)).length := List.length_append _ _
            have h3 : ('"' :: ':' :: ' ' :: (printVal d v ++ rest)).length
                = (printVal d v ++ rest).length + 3 := by simp
            have := length_le_escapeStr k.data
            omega)]
        have hv : parseValue fuel (' ' :: (printVal d v ++ rest)) = some (v, rest) := by
          rw [parseValue_congr_ws (skipWs_cons_of_ws (show isWs ' ' = true by decide)
            (printVal d v ++ rest)) fuel]
          exact ihA v d rest (by omega) hr
        simp [skipWs, isWs, hv, show String.mk k.data = k from rfl]

theorem one_le_numChars_length (i : Int) : 1 ≤ (numChars i).length := by
  cases i with
  | ofNat n =>
      by_cases hn : n = 0
      · subst hn; simp [numChars]
      · have hne : Nat.digits 10 n ≠ [] := Nat.digits_ne_nil_iff_ne_zero.mpr hn
        simp [numChars, hn, natToChars]
        exact List.length_pos.mpr hne
  | negSucc m => simp [numChars]

theorem indentChars_length (n : Nat) : (indentChars n).length = 2 * n := by
  simp [indentChars]

theorem one_le_sizeOf_jvalue (v : JValue) : 1 ≤ sizeOf v := by
  cases v <;> simp_arith

theorem one_le_sizeOf_jlist (vs : List JValue) : 1 ≤ sizeOf vs := by
  cases vs <;> simp_arith

theorem one_le_sizeOf_jfields (kvs : List (String × JValue)) : 1 ≤ sizeOf kvs := by
  cases kvs <;> simp_arith

theorem jsize_le_length : ∀ n : Nat,
    (∀ (v : JValue) (d : Nat), sizeOf v ≤ n → jsize v ≤ (printVal d v).length) ∧
    (∀ (vs : List JValue) (d : Nat), sizeOf vs ≤ n →
      jsizeList vs ≤ (printElemsTail d vs).length + 1) ∧
    (∀ (kvs : List (String × JValue)) (d : Nat), sizeOf kvs ≤ n →
      jsizeFields kvs ≤ (printFieldsTail d kvs).length + 1) := by
  intro n
  induction n with
  | zero =>
      refine ⟨fun v d hsz => ?_, fun vs d hsz => ?_, fun kvs d hsz => ?_⟩
      · have := one_le_sizeOf_jvalue v; omega
      · have := one_le_sizeOf_jlist vs; omega
      · have := one_le_sizeOf_jfields kvs; omega
  | succ n ih =>
      obtain ⟨ihV, ihL, ihF⟩ := ih
      refine ⟨fun v d hsz => ?_, fun vs d hsz => ?_, fun kvs d hsz => ?_⟩
      · cases v with
        | null => simp [jsize, printVal]
        | bool b => cases b <;> simp [jsize, printVal]
        | num i =>
            have := one_le_numChars_length i
            simp [jsize, printVal]
            omega
        | str s => simp [jsize, printVal]
        | arr xs =>
            cases xs with
            | nil => simp [jsize, jsizeList, printVal]
            | cons x xs =>
                have hx : sizeOf x ≤ n ∧ sizeOf xs ≤ n := by
                  have h1 := one_le_sizeOf_jvalue x
                  have h2 := one_le_sizeOf_jlist xs
                  simp_arith at hsz
                  omega
                have ih1 := ihV x (d + 1) hx.1
                have ih2 := ihL xs (d + 1) hx.2
                simp [jsize, jsizeList, printVal, indentChars_length]
                omega
        | obj kvs2 =>
            cases kvs2 with
            | nil => simp [jsize, jsizeFields, printVal]
            | cons kv kvs =>
                obtain ⟨k, v⟩ := kv
                have hx : sizeOf v ≤ n ∧ sizeOf kvs ≤ n := by
                  have h1 := one_le_sizeOf_jvalue v
                  have h2 := one_le_sizeOf_jfields kvs
                  simp_arith at hsz
                  omega
                have ih1 := ihV v (d + 1) hx.1
                have ih2 := ihF kvs (d + 1) hx.2
                simp [jsize, jsizeFields, printVal, printFieldBody, indentChars_length]
                omega
      · cases vs with
        | nil => simp [jsizeList, printElemsTail]
        | cons v vs =>
            have hx : sizeOf v ≤ n ∧ sizeOf vs ≤ n := by
              have h1 := one_le_sizeOf_jvalue v
              have h2 := one_le_sizeOf_jlist vs
              simp_arith at hsz
              omega
            have ih1 := ihV v d hx.1
            have ih2 := ihL vs d hx.2
            simp [jsizeList, printElemsTail, indentChars_length]
            omega
      · cases kvs with
        | nil => simp [jsizeFields, printFieldsTail]
        | cons kv kvs =>
            obtain ⟨k, v⟩ := kv
            have hx : sizeOf v ≤ n ∧ sizeOf kvs ≤ n := by
              have h1 := one_le_sizeOf_jvalue v
              have h2 := one_le_sizeOf_jfields kvs
              simp_arith at hsz
              omega
            have ih1 := ihV v d hx.1
            have ih2 := ihF kvs d hx.2
            simp [jsizeFields, printFieldsTail, printFieldBody, indentChars_length]
            omega

/-- Claim C6: renderer round-trip.  Emitting `GolemResult::Json(v)` under
`--format json` writes exactly one stdout line, and parsing that emitted text
as JSON yields a value equal to `v`. -/
theorem claim_c6_renderer_roundtrip (yamlSer : JValue → String) (v : JValue) :
    renderEffects yamlSer (GolemResult.Json v) Format.Json =
      [(Channel.stdout, renderJsonText v)] ∧
    parseJson (renderJsonText v) = some v := by
  constructor
  · rfl
  · have hdata : (renderJsonText v).data = printVal 0 v ++ ['\n'] := by
      simp [renderJsonText, to_string_pretty]
    have hlen := (jsize_le_length (sizeOf v)).1 v 0 (le_refl _)
    have hA := (parse_print_roundtrip_aux ((printVal 0 v ++ ['\n']).length + 1)).1 v 0 ['\n']
      (by
        have h2 : (printVal 0 v ++ ['\n']).length = (printVal 0 v).length + 1 := by simp
        omega)
      (by decide)
    unfold parseJson
    rw [hdata, hA]
    simp [skipWs, isWs]

/-- Claim C1: TLS certificate verification is disabled (the built client
accepts invalid certificates) if and only if `GOLEM_ALLOW_INSECURE` is present
with a value other than the literal string `"false"`; in every other
situation the client verifies certificates. -/
theorem claim_c1_allow_insecure_iff (env : Option String) :
    (buildClient env).danger_accept_invalid_certs = true ↔
      ∃ v, env = some v ∧ v ≠ "false" := by
  cases env with
  | none => simp [buildClient, allow_insecure]
  | some v =>
      by_cases h : v = "false" <;>
        simp [buildClient, allow_insecure, h]

/-- Claim C2: the base URL is resolved by the three-source precedence: the
`--golem-url` flag when given, else the `GOLEM_BASE_URL` environment variable
when set, else the literal default. -/
theorem claim_c2_base_url_precedence :
    (∀ (u : String) (env : Option String), resolveBaseUrl (some u) env = u) ∧
    (∀ e : String, resolveBaseUrl none (some e) = e) ∧
    resolveBaseUrl none none = "http://localhost:9881" :=
  ⟨fun _ _ => rfl, fun _ => rfl, rfl⟩

/-- Claim C3 counterexample: with `--golem-url` set to the unparseable `":"`,
the process panics out of `Url::parse(..).unwrap()` and terminates with exit
code 101, not with an `InvalidConfig` error and exit code 1. -/
theorem claim_c3_counterexample :
    asyncMainExitCode (some ":") none (HandlerOutcome.ok (GolemResult.Str "x")) = 101 ∧
    (101 : Nat) ≠ 1 :=
  ⟨rfl, by decide⟩

/-- Claim C3 (amended): for every invocation whose resolved base-URL string
fails to parse as a URL, the program terminates fatally with the non-zero
exit code 101 of a Rust panic out of `unwrap`, rather than surfacing the
failure as a structured `InvalidConfig` error with exit code 1. -/
theorem claim_c3_url_parse_failure_panics (golem_url envBaseUrl : Option String)
    (h : parseUrl (resolveBaseUrl golem_url envBaseUrl) = none)
    (res : HandlerOutcome) :
    asyncMainExitCode golem_url envBaseUrl res = 101 ∧
    asyncMainExitCode golem_url envBaseUrl res ≠ 0 := by
  unfold asyncMainExitCode
  rw [h]
  show (101 : Nat) = 101 ∧ (101 : Nat) ≠ 0
  exact ⟨rfl, by decide⟩

theorem claim_c3_witness :
    asyncMainExitCode (some "not a url") none HandlerOutcome.err = 101 ∧
    asyncMainExitCode (some "not a url") none HandlerOutcome.err ≠ 0 :=
  claim_c3_url_parse_failure_panics (some "not a url") none (by decide) HandlerOutcome.err

/-- Claim C4 counterexample: the `Format` enumeration offered on the command
line has no value distinct from `Yaml` and `Json`, refuting the claimed
three-valued enumeration with a `Text` variant. -/
theorem claim_c4_counterexample :
    ¬ ∃ f : Format, f ≠ Format.Yaml ∧ f ≠ Format.Json := by
  rintro ⟨f, h1, h2⟩
  cases f
  · exact h1 rfl
  · exact h2 rfl

/-- Claim C4 (amended): `Format` is the two-valued enumeration with exactly
`Yaml` and `Json` and default `Yaml`, and rendering `GolemResult::Json(v)`
emits pretty-printed JSON when the format is `Json` and YAML when it is
`Yaml`. -/
theorem claim_c4_format_rendering :
    (∀ f : Format, f = Format.Yaml ∨ f = Format.Json) ∧
    formatDefault = Format.Yaml ∧
    (∀ (yamlSer : JValue → String) (v : JValue),
      renderEffects yamlSer (GolemResult.Json v) Format.Json =
        [(Channel.stdout, to_string_pretty v ++ "\n")] ∧
      renderEffects yamlSer (GolemResult.Json v) Format.Yaml =
        [(Channel.stdout, yamlSer v ++ "\n")]) := by
  refine ⟨fun f => ?_, rfl, fun yamlSer v => ⟨rfl, rfl⟩⟩
  cases f
  · exact Or.inl rfl
  · exact Or.inr rfl

/-- Claim C5: rendering `GolemResult::Str(s)` writes exactly `s` followed by
one newline to stdout, for every format; the output does not depend on the
chosen format. -/
theorem claim_c5_str_rendering (yamlSer : JValue → String) (s : String) (fmt : Format) :
    renderEffects yamlSer (GolemResult.Str s) fmt = [(Channel.stdout, s ++ "\n")] := by
  cases fmt <;> rfl

/-- Claim C7 counterexample: an invocation that parses successfully but whose
resolved URL string fails URL parsing exits with code 101, an outcome outside
the claimed exhaustive set of exit codes 0, 1 and 2. -/
theorem claim_c7_counterexample :
    mainExitCode (ParseResult.ok (some "::")) none HandlerOutcome.err = 101 ∧
    ¬ ((101 : Nat) = 0 ∨ (101 : Nat) = 1 ∨ (101 : Nat) = 2) :=
  ⟨rfl, by decide⟩

/-- Claim C7 (amended): the exit code is 2 on argument-parse failure, 0 when
the dispatched handler returns a result, 1 when it returns an error, and
additionally 101 when the resolved base URL fails to parse, because
`async_main` panics there before dispatch. -/
theorem claim_c7_exit_codes :
    (∀ (env : Option String) (h : HandlerOutcome),
      mainExitCode ParseResult.parseError env h = 2) ∧
    (∀ (u env : Option String) (r : GolemResult) (ctx : Context),
      buildContext u env = some ctx →
      mainExitCode (ParseResult.ok u) env (HandlerOutcome.ok r) = 0) ∧
    (∀ (u env : Option String) (ctx : Context),
      buildContext u env = some ctx →
      mainExitCode (ParseResult.ok u) env HandlerOutcome.err = 1) ∧
    (∀ (u env : Option String) (h : HandlerOutcome),
      buildContext u env = none →
      mainExitCode (ParseResult.ok u) env h = 101) := by
  refine ⟨fun env h => rfl, fun u env r ctx hc => ?_, fun u env ctx hc => ?_, fun u env h hc => ?_⟩
  · rcases Option.map_eq_some'.mp hc with ⟨w, hw, -⟩
    simp [mainExitCode, asyncMainExitCode, hw]
  · rcases Option.map_eq_some'.mp hc with ⟨w, hw, -⟩
    simp [mainExitCode, asyncMainExitCode, hw]
  · have hw : parseUrl (resolveBaseUrl u env) = none := Option.map_eq_none'.mp hc
    simp [mainExitCode, asyncMainExitCode, hw]

theorem claim_c7_witness :
    mainExitCode (ParseResult.ok none) none (HandlerOutcome.ok (GolemResult.Str "ok")) = 0 ∧
    mainExitCode (ParseResult.ok none) none HandlerOutcome.err = 1 ∧
    mainExitCode (ParseResult.ok (some "::")) none HandlerOutcome.err = 101 :=
  ⟨claim_c7_exit_codes.2.1 none none (GolemResult.Str "ok")
      { base_url := { scheme := "http", rest := "//localhost:9881" } } (by decide),
   claim_c7_exit_codes.2.2.1 none none
      { base_url := { scheme := "http", rest := "//localhost:9881" } } (by decide),
   claim_c7_exit_codes.2.2.2 (some "::") none HandlerOutcome.err (by decide)⟩

/-- Claim C8: every write of the result renderer goes to stdout, and any
logging subscriber that `main` installs writes to stderr, so no diagnostic
reaches stdout. -/
theorem claim_c8_channel_separation :
    (∀ (yamlSer : JValue → String) (res : GolemResult) (fmt : Format),
      (renderEffects yamlSer res fmt).all (fun e => e.1 == Channel.stdout) = true) ∧
    (∀ v : Option Level,
      (setupSubscriber v).all (fun cfg => cfg.writer == Channel.stderr) = true) := by
  constructor
  · intro yamlSer res fmt
    cases res <;> cases fmt <;> simp [renderEffects] <;> rfl
  · intro v
    cases v with
    | none => rfl
    | some l => rfl

/-- Claim C9 counterexample: invoking with `--golem-url ftp://example.com`
reaches handler dispatch with a Context whose base URL scheme is `ftp`,
which is neither `http` nor `https`; the code never validates the scheme. -/
theorem claim_c9_counterexample :
    ∃ ctx : Context, buildContext (some "ftp://example.com") none = some ctx ∧
      ctx.base_url.scheme ≠ "http" ∧ ctx.base_url.scheme ≠ "https" :=
  ⟨{ base_url := { scheme := "ftp", rest := "//example.com" } },
    by decide, by decide, by decide⟩

/-- Claim C9 (amended): the Context stores exactly the URL parsed from the
resolved string, with no scheme restriction: whenever the resolved string
parses to a URL, that URL — whatever its scheme — becomes the Context's
`base_url`. -/
theorem claim_c9_context_stores_parsed_url (golem_url envBaseUrl : Option String) (u : Url)
    (h : parseUrl (resolveBaseUrl golem_url envBaseUrl) = some u) :
    buildContext golem_url envBaseUrl = some { base_url := u } := by
  unfold buildContext
  rw [h]
  rfl

theorem claim_c9_witness :
    buildContext (some "https://example.com") none =
      some { base_url := { scheme := "https", rest := "//example.com" } } :=
  claim_c9_context_stores_parsed_url (some "https://example.com") none
    { scheme := "https", rest := "//example.com" } (by decide)

/-- Claim C10: a global logging subscriber is installed if and only if the
parsed verbosity yields a concrete level, with the translated maximum level
and the stderr writer; a verbosity resolving to `Off` (for example one quiet
flag at the default level) installs no subscriber at all. -/
theorem claim_c10_subscriber_installation :
    (∀ q : Nat, setupSubscriber (verbosityLogLevel 0 (q + 1)) = none) ∧
    (∀ l : Level, setupSubscriber (some l) =
      some { maxLevel := toTracingLevel l, writer := Channel.stderr }) ∧
    (∀ v : Option Level, (setupSubscriber v).isSome = v.isSome) := by
  refine ⟨fun q => ?_, fun l => rfl, fun v => by cases v <;> rfl⟩
  unfold verbosityLogLevel
  rw [if_pos (by push_cast; omega)]
  rfl

end GolemCli
